import Mathlib

set_option maxRecDepth 8000

/-!  Shallow embedding of `src/agents/pi-embedded-runner/run/audio.ts`.

JS strings are modelled as `String`/`List Char`.  The three regex scans of
`detectAudioReferences` are modelled by hand-written matchers that follow the
engine's leftmost-match, greedy/lazy backtracking semantics for the three
concrete patterns in the source.  `toLowerCase` is modelled per character by
`Char.toLower`, which agrees with JS on ASCII (all characters relevant here).
External collaborators that live outside this file's source (`resolveUserPath`,
`fileURLToPath`, `assertSandboxPath`, `fs.stat`, `loadWebMedia`) are parameters
of the embedding; calls to the I/O ones are recorded in a trace so that claims
of the form "no read happens" are statable.  -/

namespace Audio

/-- JS `\s` (and `String.prototype.trim`) whitespace characters. -/
def jsWs (c : Char) : Bool :=
  decide (c.toNat = 9 ∨ c.toNat = 10 ∨ c.toNat = 11 ∨ c.toNat = 12 ∨ c.toNat = 13 ∨
    c.toNat = 32 ∨ c.toNat = 160 ∨ c.toNat = 0x1680 ∨
    (0x2000 ≤ c.toNat ∧ c.toNat ≤ 0x200a) ∨ c.toNat = 0x2028 ∨ c.toNat = 0x2029 ∨
    c.toNat = 0x202f ∨ c.toNat = 0x205f ∨ c.toNat = 0x3000 ∨ c.toNat = 0xfeff)

/-- JS `String.prototype.trim`. -/
def jsTrim (s : List Char) : List Char :=
  ((s.dropWhile jsWs).reverse.dropWhile jsWs).reverse

/-- JS `toLowerCase`, per character (exact on ASCII). -/
def lowerL (s : List Char) : List Char :=
  s.map Char.toLower

/-- JS `String.prototype.startsWith` (case sensitive). -/
def leadsWith : List Char → List Char → Bool
  | [], _ => true
  | _ :: _, [] => false
  | p :: ps, c :: cs => if p = c then leadsWith ps cs else false

/-- Consume a literal (given lowercase) case-insensitively; returns the
consumed original characters and the rest. -/
def stripLeadCI : List Char → List Char → Option (List Char × List Char)
  | [], s => some ([], s)
  | _ :: _, [] => none
  | p :: ps, c :: cs =>
    if c.toLower = p then
      match stripLeadCI ps cs with
      | some (t, r) => some (c :: t, r)
      | none => none
    else none

/-- The extension alternation `mp3|wav|aac|flac|ogg|opus|m4a|mp4|mpeg|mpga|webm`
in the order in which the source's regexes list it. -/
def audioExtNames : List String :=
  ["mp3", "wav", "aac", "flac", "ogg", "opus", "m4a", "mp4", "mpeg", "mpga", "webm"]

/-- The `AUDIO_EXTENSIONS` set constant of the source. -/
def AUDIO_EXTENSIONS : List String :=
  [".mp3", ".wav", ".aac", ".flac", ".ogg", ".opus", ".m4a", ".mp4", ".mpeg", ".mpga", ".webm"]

/-- Try the extension alternation case-insensitively at the head of `s`
(first alternative wins); returns consumed original characters and rest. -/
def matchExtList : List String → List Char → Option (List Char × List Char)
  | [], _ => none
  | e :: es, s =>
    match stripLeadCI e.data s with
    | some (t, r) => some (t, r)
    | none => matchExtList es s

def matchExtCI (s : List Char) : Option (List Char × List Char) :=
  matchExtList audioExtNames s

/-!  ## `node:path` (posix) fragments used by the source  -/

/-- Strip trailing `/` characters (node's basename/extname ignore them). -/
def dropTrailingSlashes (s : List Char) : List Char :=
  (s.reverse.dropWhile (fun c => c = '/')).reverse

/-- The part of `s` after its last `/`. -/
def afterLastSlash (s : List Char) : List Char :=
  (s.reverse.takeWhile (fun c => !(c = '/' : Bool))).reverse

/-- The suffix of `b` starting at its last `.` (if any). -/
def sufAtLastDot : List Char → Option (List Char) → Option (List Char)
  | [], best => best
  | c :: r, best =>
    if c = '.' then sufAtLastDot r (some (c :: r)) else sufAtLastDot r best

/-- node `path.extname` (posix): last-dot suffix of the basename, empty when the
only dot starts the basename (dotfiles) or the basename is `..`. -/
def extnamePosix (s : List Char) : List Char :=
  let b := afterLastSlash (dropTrailingSlashes s)
  match sufAtLastDot b none with
  | none => []
  | some t => if t.length = b.length then [] else if b = ['.', '.'] then [] else t

/-- `isAudioExtension` from the source, over `List Char`:
`AUDIO_EXTENSIONS.has(path.extname(filePath).toLowerCase())`. -/
def isAudioExtensionL (s : List Char) : Bool :=
  decide (String.mk (lowerL (extnamePosix s)) ∈ AUDIO_EXTENSIONS)

/-- `isAudioExtension` from the source. -/
def isAudioExtension (filePath : String) : Bool :=
  isAudioExtensionL filePath.data

/-!  ## Data model  -/

/-- The `"path" | "url"` tag of a detected reference. -/
inductive RefType
  | path
  | url
deriving DecidableEq

/-- `DetectedAudioRef` from the source. -/
structure DetectedAudioRef where
  raw : String
  type : RefType
  resolved : String
  messageIndex : Option Nat := none
deriving DecidableEq

/-- `AudioContent` from the source (the fixed `type: "audio"` discriminator is
implicit in the Lean type). -/
structure AudioContent where
  data : String
  mimeType : String
deriving DecidableEq

/-- Detection-pass state: the refs accumulated so far and the `seen` set of
lowercased raws (in insertion order). -/
structure DetectState where
  refs : List DetectedAudioRef := []
  seen : List (List Char) := []
deriving DecidableEq

/-- `addPathRef` from the source. -/
def addPathRef (ru : String → String) (raw : List Char) (st : DetectState) : DetectState :=
  let trimmed := jsTrim raw
  if trimmed.isEmpty then st
  else if lowerL trimmed ∈ st.seen then st
  else if leadsWith "http://".data trimmed || leadsWith "https://".data trimmed then st
  else if !(isAudioExtensionL trimmed) then st
  else
    let rawS := String.mk trimmed
    let resolved := if trimmed.head? = some '~' then ru rawS else rawS
    { refs := st.refs ++ [{ raw := rawS, type := RefType.path, resolved := resolved }],
      seen := st.seen ++ [lowerL trimmed] }

/-!  ## Pattern 1: `\[media attached(?:\s+\d+\/\d+)?:\s*([^\]]+)\]` (gi)  -/

/-- The optional `(?:\s+\d+\/\d+)?` counter followed by `:`. -/
def tryCounter (s : List Char) : Option (List Char) :=
  let w := s.takeWhile jsWs
  if w.isEmpty then none
  else
    let s2 := s.drop w.length
    let d1 := s2.takeWhile Char.isDigit
    if d1.isEmpty then none
    else
      match s2.drop d1.length with
      | '/' :: s3 =>
        let d2 := s3.takeWhile Char.isDigit
        if d2.isEmpty then none
        else
          match s3.drop d2.length with
          | ':' :: r => some r
          | _ => none
      | _ => none

/-- Match the structured-marker pattern anchored at `s`; returns the captured
bracket content (group 1) and the rest of the input after `]`. -/
def matchMediaAt (s : List Char) : Option (List Char × List Char) :=
  match stripLeadCI "[media attached".data s with
  | none => none
  | some (_, s1) =>
    let afterColon :=
      match tryCounter s1 with
      | some r => some r
      | none =>
        match s1 with
        | ':' :: r => some r
        | _ => none
    match afterColon with
    | none => none
    | some r =>
      let content0 := r.takeWhile (fun c => !(c = ']' : Bool))
      match r.drop content0.length with
      | ']' :: rest2 =>
        if content0.isEmpty then none
        else
          let t := content0.dropWhile jsWs
          let content := if t.isEmpty then content0.drop (content0.length - 1) else t
          some (content, rest2)
      | _ => none

/-- `/^\d+\s+files?$/i` on the trimmed bracket content. -/
def matchNFiles (t : List Char) : Bool :=
  let d := t.takeWhile Char.isDigit
  if d.isEmpty then false
  else
    let r1 := t.drop d.length
    let w := r1.takeWhile jsWs
    if w.isEmpty then false
    else
      match stripLeadCI "file".data (r1.drop w.length) with
      | none => false
      | some (_, r2) => r2.isEmpty || decide (lowerL r2 = ['s'])

/-- JS `.` character class (anything but line terminators). -/
def dotCls (c : Char) : Bool :=
  decide (¬(c.toNat = 10 ∨ c.toNat = 13 ∨ c.toNat = 0x2028 ∨ c.toNat = 0x2029))

/-- The `\s*(?:\(|$|\|)` tail of the nested path pattern. -/
def extTailOk (r : List Char) : Bool :=
  match r.dropWhile jsWs with
  | [] => true
  | c :: _ => decide (c = '(' ∨ c = '|')

/-- Extension alternation that must also satisfy the `\s*(?:\(|$|\|)` tail. -/
def matchExtListTail : List String → List Char → Option (List Char)
  | [], _ => none
  | e :: es, s =>
    match stripLeadCI e.data s with
    | some (t, r) => if extTailOk r then some t else matchExtListTail es s
    | none => matchExtListTail es s

/-- Lazy `(.+?\.(?:ext))` search: grow the group one character at a time
(each character must match `.`), trying `\.` + extension + tail at each step. -/
def lazyGroupGo : List Char → List Char → Option (List Char)
  | _, [] => none
  | revAcc, c :: rem =>
    if c = '.' ∧ revAcc ≠ [] then
      match matchExtListTail audioExtNames rem with
      | some e => some (revAcc.reverse ++ '.' :: e)
      | none => if dotCls c then lazyGroupGo (c :: revAcc) rem else none
    else if dotCls c then lazyGroupGo (c :: revAcc) rem else none

/-- Leading `^\s*` of the nested path pattern: greedy, so try the longest
whitespace run first and backtrack downward. -/
def tryWsLevels (content : List Char) : Nat → Option (List Char)
  | 0 => lazyGroupGo [] content
  | w + 1 =>
    match lazyGroupGo [] (content.drop (w + 1)) with
    | some g => some g
    | none => tryWsLevels content w

/-- `content.match(/^\s*(.+?\.(?:mp3|...|webm))\s*(?:\(|$|\|)/i)`, group 1. -/
def matchPathInContent (content : List Char) : Option (List Char) :=
  tryWsLevels content (content.takeWhile jsWs).length

/-- Body of the structured-marker loop for one match. -/
def processMediaContent (ru : String → String) (content : List Char) (st : DetectState) :
    DetectState :=
  if matchNFiles (jsTrim content) then st
  else
    match matchPathInContent content with
    | some g => addPathRef ru (jsTrim g) st
    | none => st

/-- The `mediaAttachedPattern.exec` loop (fuelled; one unit of fuel per text
position, enough because every step consumes at least one character). -/
def scanMedia (ru : String → String) : Nat → List Char → DetectState → DetectState
  | _, [], st => st
  | 0, _, st => st
  | fuel + 1, c :: rest, st =>
    match matchMediaAt (c :: rest) with
    | some (content, after) => scanMedia ru fuel after (processMediaContent ru content st)
    | none => scanMedia ru fuel rest st

/-!  ## Pattern 2: `file:\/\/[^\s<>"'`\]]+\.(?:ext)` (gi)  -/

/-- Characters excluded by the `file://` URL character class. -/
def urlStopChar (c : Char) : Bool :=
  jsWs c ||
    decide (c.toNat = 60 ∨ c.toNat = 62 ∨ c.toNat = 34 ∨ c.toNat = 39 ∨
      c.toNat = 96 ∨ c.toNat = 93)

/-- Greedy split of the `[^...]+` run (longest first, at least one character),
then `\.` + extension. Returns (run length consumed, extension chars, rest). -/
def trySplitUrl (s1 : List Char) : Nat → Option (Nat × List Char × List Char)
  | 0 => none
  | l + 1 =>
    match s1.drop (l + 1) with
    | '.' :: r =>
      match matchExtCI r with
      | some (e, r2) => some (l + 1, e, r2)
      | none => trySplitUrl s1 l
    | _ => trySplitUrl s1 l

/-- Match the `file://` URL pattern anchored at `s`; returns the raw match and
the rest of the input. -/
def matchFileUrlAt (s : List Char) : Option (List Char × List Char) :=
  match stripLeadCI "file://".data s with
  | none => none
  | some (pre, s1) =>
    let run := s1.takeWhile (fun c => !(urlStopChar c))
    match trySplitUrl s1 run.length with
    | some (l, e, r2) => some (pre ++ s1.take l ++ '.' :: e, r2)
    | none => none

/-- The `fileUrlPattern.exec` loop.  Note the source adds the lowercased raw to
`seen` before attempting `fileURLToPath`, and drops the match silently when the
conversion fails. -/
def scanFileUrl (fu : String → Option String) : Nat → List Char → DetectState → DetectState
  | _, [], st => st
  | 0, _, st => st
  | fuel + 1, c :: rest, st =>
    match matchFileUrlAt (c :: rest) with
    | some (raw, after) =>
      let key := lowerL raw
      let st' :=
        if key ∈ st.seen then st
        else
          let st1 : DetectState := { st with seen := st.seen ++ [key] }
          match fu (String.mk raw) with
          | some res =>
            { st1 with
              refs := st1.refs ++
                [{ raw := String.mk raw, type := RefType.path, resolved := res }] }
          | none => st1
      scanFileUrl fu fuel after st'
    | none => scanFileUrl fu fuel rest st

/-!  ## Pattern 3: `(?:^|\s|["'`(])((\.\.?\/|[~/])[^\s"'`()[\]]*\.(?:ext))` (gi)  -/

/-- Characters excluded by the bare-path character class. -/
def bareStopChar (c : Char) : Bool :=
  jsWs c ||
    decide (c.toNat = 34 ∨ c.toNat = 39 ∨ c.toNat = 96 ∨ c.toNat = 40 ∨
      c.toNat = 41 ∨ c.toNat = 91 ∨ c.toNat = 93)

/-- The quote/paren characters of the pattern's leading alternation. -/
def leadQuote (c : Char) : Bool :=
  decide (c.toNat = 34 ∨ c.toNat = 39 ∨ c.toNat = 96 ∨ c.toNat = 40)

/-- The `(\.\.?\/|[~/])` head alternation (alternatives in regex order; they
are mutually exclusive on their first two characters). -/
def headAlt (s : List Char) : Option (List Char × List Char) :=
  match s with
  | '.' :: '.' :: '/' :: r => some (['.', '.', '/'], r)
  | '.' :: '/' :: r => some (['.', '/'], r)
  | '~' :: r => some (['~'], r)
  | '/' :: r => some (['/'], r)
  | _ => none

/-- Greedy split of the `[^...]*` run (longest first, zero allowed),
then `\.` + extension. -/
def trySplitBare (rest : List Char) : Nat → Option (Nat × List Char × List Char)
  | 0 =>
    match rest with
    | '.' :: r =>
      match matchExtCI r with
      | some (e, r2) => some (0, e, r2)
      | none => none
    | _ => none
  | l + 1 =>
    match rest.drop (l + 1) with
    | '.' :: r =>
      match matchExtCI r with
      | some (e, r2) => some (l + 1, e, r2)
      | none => trySplitBare rest l
    | _ => trySplitBare rest l

/-- Group 1 of the bare-path pattern anchored at `s`; returns the captured
path and the rest of the input. -/
def matchBareGroup (s : List Char) : Option (List Char × List Char) :=
  match headAlt s with
  | none => none
  | some (h, rest) =>
    let run := rest.takeWhile (fun c => !(bareStopChar c))
    match trySplitBare rest run.length with
    | some (l, e, r2) => some (h ++ rest.take l ++ '.' :: e, r2)
    | none => none

/-- The `pathPattern.exec` loop.  `atStart` tracks whether the scan position is
index 0, where the zero-width `^` alternative of the leading group applies;
otherwise the match must consume a whitespace or quote/paren character first. -/
def scanBare (ru : String → String) : Nat → List Char → Bool → DetectState → DetectState
  | _, [], _, st => st
  | 0, _, _, st => st
  | fuel + 1, c :: rest, atStart, st =>
    match (if atStart then matchBareGroup (c :: rest) else none) with
    | some (g, after) => scanBare ru fuel after false (addPathRef ru g st)
    | none =>
      if jsWs c || leadQuote c then
        match matchBareGroup rest with
        | some (g, after) => scanBare ru fuel after false (addPathRef ru g st)
        | none => scanBare ru fuel rest false st
      else scanBare ru fuel rest false st

/-- `detectAudioReferences` from the source, parameterised by the external
`resolveUserPath` (`ru`) and `fileURLToPath` (`fu`, `none` models a throw). -/
def detectAudioReferences (ru : String → String) (fu : String → Option String)
    (prompt : String) : List DetectedAudioRef :=
  let cs := prompt.data
  let st1 := scanMedia ru cs.length cs {}
  let st2 := scanFileUrl fu cs.length cs st1
  let st3 := scanBare ru cs.length cs true st2
  st3.refs

/-!  ## `node:path` resolution used by the loader  -/

/-- node posix `path.isAbsolute`. -/
def pathIsAbsolute (s : String) : Bool :=
  decide (s.data.head? = some '/')

/-- Split on `/`. -/
def splitSlashGo : List Char → List Char → List (List Char)
  | acc, [] => [acc.reverse]
  | acc, c :: r => if c = '/' then acc.reverse :: splitSlashGo [] r else splitSlashGo (c :: acc) r

def splitSlash (s : List Char) : List (List Char) :=
  splitSlashGo [] s

/-- Normalise path segments: drop empty and `.`, let `..` pop (at the root of
an absolute path a `..` is dropped; in a relative path unmatched `..` stack). -/
def normSegsGo (isAbs : Bool) : List (List Char) → List (List Char) → List (List Char)
  | stack, [] => stack.reverse
  | stack, seg :: rest =>
    if seg = [] ∨ seg = ['.'] then normSegsGo isAbs stack rest
    else if seg = ['.', '.'] then
      match stack with
      | [] => if isAbs then normSegsGo isAbs [] rest else normSegsGo isAbs [seg] rest
      | top :: stack' =>
        if top = ['.', '.'] then normSegsGo isAbs (seg :: stack) rest
        else normSegsGo isAbs stack' rest
    else normSegsGo isAbs (seg :: stack) rest

def joinSegs : List (List Char) → List Char
  | [] => []
  | [s] => s
  | s :: rest => s ++ '/' :: joinSegs rest

/-- node posix `path.resolve(root, target)`; `cwd` is the process working
directory node falls back to when neither argument is absolute. -/
def pathResolve (cwd root target : String) : String :=
  let full : List Char :=
    if pathIsAbsolute target then target.data
    else if pathIsAbsolute root then root.data ++ '/' :: target.data
    else cwd.data ++ '/' :: root.data ++ '/' :: target.data
  let isAbs : Bool := decide (full.head? = some '/')
  let segs := normSegsGo isAbs [] (splitSlash full)
  if isAbs then String.mk ('/' :: joinSegs segs)
  else if segs.isEmpty then "." else String.mk (joinSegs segs)

/-!  ## Reference Loader (`loadAudioFromRef`)  -/

/-- Result of the external `loadWebMedia` byte-loading primitive; bytes are
modelled as `List Nat` (each < 256). -/
structure MediaResult where
  kind : String
  contentType : Option String
  buffer : List Nat
deriving DecidableEq

/-- One call to an external I/O primitive, recorded in order. -/
inductive EnvCall
  | sandbox (filePath cwd root : String)
  | stat (p : String)
  | load (p : String) (maxBytes : Option Nat)
deriving DecidableEq

/-- The external capabilities consumed by the loader.  `assertSandbox` models
`assertSandboxPath` (`.ok` returns the canonicalised path, `.error` a throw);
`stat` models `fs.stat`; `loadWebMedia` models the byte-loading primitive,
whose `.error` is an invocation-level throw. -/
structure Env where
  cwd : String
  assertSandbox : String → String → String → Except String String
  stat : String → Except String Unit
  loadWebMedia : String → Option Nat → Except String MediaResult

/-- The `options` parameter of `loadAudioFromRef`. -/
structure LoadOptions where
  maxBytes : Option Nat := none
  sandboxRoot : Option String := none
deriving DecidableEq

/-- Standard base64 alphabet. -/
def base64Chars : List Char :=
  "ABCDEFGHIJKLMNOPQRSTUVWXYZabcdefghijklmnopqrstuvwxyz0123456789+/".data

def b64c (n : Nat) : Char :=
  base64Chars.getD n 'A'

/-- `Buffer.prototype.toString("base64")`. -/
def base64Encode : List Nat → List Char
  | [] => []
  | [a] => [b64c (a / 4 % 64), b64c (a % 4 * 16), '=', '=']
  | [a, b] => [b64c (a / 4 % 64), b64c (a % 4 * 16 + b / 16), b64c (b % 16 * 4), '=']
  | a :: b :: c :: rest =>
    [b64c (a / 4 % 64), b64c (a % 4 * 16 + b / 16), b64c (b % 16 * 4 + c / 64), b64c (c % 64)] ++
      base64Encode rest

/-- The path after the relative-resolution step (source lines 138-141):
relative paths resolve against `options.sandboxRoot ?? workspaceDir`. -/
def targetAfterResolve (env : Env) (ref : DetectedAudioRef) (workspaceDir : String)
    (options : LoadOptions) : String :=
  if ref.type = RefType.path ∧ ¬(pathIsAbsolute ref.resolved = true) then
    pathResolve env.cwd (options.sandboxRoot.getD workspaceDir) ref.resolved
  else ref.resolved

/-- The authoritative path the existence probe and byte load operate on:
the sandbox primitive's canonicalised result when a truthy sandbox root is
set (`none` when the sandbox rejects), the resolved path otherwise.  The
source gates on JS truthiness (`options?.sandboxRoot`, audio.ts:143), so an
empty-string sandbox root skips validation. -/
def targetFinal (env : Env) (ref : DetectedAudioRef) (workspaceDir : String)
    (options : LoadOptions) : Option String :=
  match options.sandboxRoot with
  | some root =>
    if ref.type = RefType.path ∧ ¬(root = "") then
      (env.assertSandbox (targetAfterResolve env ref workspaceDir options) root root).toOption
    else some (targetAfterResolve env ref workspaceDir options)
  | none => some (targetAfterResolve env ref workspaceDir options)

/-- Classification and packaging (source lines 168-179), inside the try block:
an `.error` of `loadWebMedia` escapes to the enclosing catch. -/
def loadStage3 (env : Env) (t : String) (mb : Option Nat) (tr : List EnvCall) :
    Except (String × List EnvCall) (Option AudioContent × List EnvCall) :=
  let tr2 := tr ++ [EnvCall.load t mb]
  match env.loadWebMedia t mb with
  | .error e => .error (e, tr2)
  | .ok media =>
    if media.kind ≠ "audio" ∧ media.kind ≠ "video" then .ok (none, tr2)
    else
      .ok (some { data := String.mk (base64Encode media.buffer),
                  mimeType := media.contentType.getD "audio/mp3" }, tr2)

/-- Existence probe (source lines 159-166): a failing `fs.stat` is caught
locally and yields `null`. -/
def loadStage2 (env : Env) (ref : DetectedAudioRef) (t : String) (mb : Option Nat)
    (tr : List EnvCall) :
    Except (String × List EnvCall) (Option AudioContent × List EnvCall) :=
  if ref.type = RefType.path then
    let tr2 := tr ++ [EnvCall.stat t]
    match env.stat t with
    | .ok _ => loadStage3 env t mb tr2
    | .error _ => .ok (none, tr2)
  else loadStage3 env t mb tr

/-- The try block of `loadAudioFromRef` (source lines 130-179).  `.ok none`
models the explicit `return null`s; `.error` models an exception reaching the
end of the try block.  The sandbox stage (lines 143-157) runs only under
`ref.type === "path" && options?.sandboxRoot`, a JS truthiness test: a
`some ""` sandbox root skips it (while line 139's `??` still uses `""` as
the resolve base, which `targetAfterResolve`'s `getD` reproduces). -/
def loadAudioTryBody (env : Env) (ref : DetectedAudioRef) (workspaceDir : String)
    (options : LoadOptions) :
    Except (String × List EnvCall) (Option AudioContent × List EnvCall) :=
  if ref.type = RefType.url then .ok (none, [])
  else
    let t1 := targetAfterResolve env ref workspaceDir options
    match options.sandboxRoot with
    | some root =>
      if ref.type = RefType.path ∧ ¬(root = "") then
        match env.assertSandbox t1 root root with
        | .ok v => loadStage2 env ref v options.maxBytes [EnvCall.sandbox t1 root root]
        | .error _ => .ok (none, [EnvCall.sandbox t1 root root])
      else loadStage2 env ref t1 options.maxBytes []
    | none => loadStage2 env ref t1 options.maxBytes []

/-- `loadAudioFromRef` with its call trace: the outer catch (source lines
180-185) converts any escaped exception into `null`. -/
def loadAudioFromRefT (env : Env) (ref : DetectedAudioRef) (workspaceDir : String)
    (options : LoadOptions) : Option AudioContent × List EnvCall :=
  match loadAudioTryBody env ref workspaceDir options with
  | .ok r => r
  | .error (_, tr) => (none, tr)

/-- `loadAudioFromRef` from the source. -/
def loadAudioFromRef (env : Env) (ref : DetectedAudioRef) (workspaceDir : String)
    (options : LoadOptions) : Option AudioContent :=
  (loadAudioFromRefT env ref workspaceDir options).1

/-!  ## Capability gate and Batch Orchestrator  -/

/-- The caller-supplied model descriptor (`{ input?: string[] }`). -/
structure ModelDesc where
  input : Option (List String) := none
deriving DecidableEq

/-- `modelSupportsAudio` from the source:
`model.input?.includes("audio") || model.input?.includes("image") || false`. -/
def modelSupportsAudio (model : ModelDesc) : Bool :=
  match model.input with
  | none => false
  | some l => l.contains "audio" || l.contains "image"

/-- The parameter object of `detectAndLoadPromptAudio` (`historyMessages` is
accepted but unused by the source). -/
structure BatchParams where
  prompt : String
  workspaceDir : String
  model : ModelDesc
  existingAudio : Option (List AudioContent) := none
  historyMessages : Option (List String) := none
  maxBytes : Option Nat := none
  sandboxRoot : Option String := none

/-- The result record of `detectAndLoadPromptAudio`. -/
structure BatchResult where
  audio : List AudioContent
  loadedCount : Nat
  skippedCount : Nat
deriving DecidableEq

/-- The sequential per-reference loop of `detectAndLoadPromptAudio`
(source lines 238-250), with accumulated call trace. -/
def loadLoop (env : Env) (w : String) (o : LoadOptions) :
    List DetectedAudioRef → List AudioContent → Nat → Nat → List EnvCall →
      BatchResult × List EnvCall
  | [], acc, l, s, tr => (⟨acc, l, s⟩, tr)
  | r :: rs, acc, l, s, tr =>
    match loadAudioFromRefT env r w o with
    | (some a, t) => loadLoop env w o rs (acc ++ [a]) (l + 1) s (tr ++ t)
    | (none, t) => loadLoop env w o rs acc l (s + 1) (tr ++ t)

/-- `detectAndLoadPromptAudio` from the source, with its call trace. -/
def detectAndLoadPromptAudioT (env : Env) (ru : String → String)
    (fu : String → Option String) (p : BatchParams) : BatchResult × List EnvCall :=
  if !(modelSupportsAudio p.model) then (⟨[], 0, 0⟩, [])
  else
    let allRefs := detectAudioReferences ru fu p.prompt
    if allRefs.length = 0 then (⟨p.existingAudio.getD [], 0, 0⟩, [])
    else
      loadLoop env p.workspaceDir ⟨p.maxBytes, p.sandboxRoot⟩ allRefs
        (p.existingAudio.getD []) 0 0 []

/-- `detectAndLoadPromptAudio` from the source. -/
def detectAndLoadPromptAudio (env : Env) (ru : String → String)
    (fu : String → Option String) (p : BatchParams) : BatchResult :=
  (detectAndLoadPromptAudioT env ru fu p).1

/-!  ## Spec-modelled external primitives (used for concrete instances)  -/

/-- Modelled from the spec: the user-path expansion primitive
(`resolveUserPath` of `utils.js` is not under `src/`).  Per the spec's
external-interface contract it deterministically "expands a leading
home-marker to an absolute path"; the home directory is fixed to
`/home/user` here. -/
def resolveUserPathModel (s : String) : String :=
  match s.data with
  | '~' :: rest => String.mk ("/home/user".data ++ rest)
  | _ => s

/-- Modelled from the spec: the URL-to-path conversion applied to `file://`
matches (node's `fileURLToPath` is not under `src/`).  Per the spec, a
`file://` URL is "converted from URL form to a plain filesystem path;
conversion failures (malformed URL) cause that single match to be silently
dropped".  This model handles the empty-host, no-percent-escape case exactly
as node does (strips the scheme), and conservatively fails otherwise. -/
def fileURLToPathModel (s : String) : Option String :=
  match stripLeadCI "file://".data s.data with
  | none => none
  | some (_, r) =>
    match r with
    | '/' :: _ => if '%' ∈ r then none else some (String.mk r)
    | _ => none

/-!  ## Concrete environments used to instantiate hypotheses  -/

/-- A fully permissive environment: sandbox assertion returns its input
unchanged, stat succeeds, and the byte loader returns a small audio file. -/
def envOk : Env :=
  { cwd := "/"
    assertSandbox := fun f _ _ => .ok f
    stat := fun _ => .ok ()
    loadWebMedia := fun _ _ => .ok { kind := "audio", contentType := some "audio/mpeg", buffer := [1, 2, 3] } }

/-- An environment whose sandbox assertion rejects every path. -/
def envReject : Env :=
  { cwd := "/"
    assertSandbox := fun _ _ _ => .error "path escapes sandbox root"
    stat := fun _ => .ok ()
    loadWebMedia := fun _ _ => .ok { kind := "audio", contentType := none, buffer := [] } }

/-- An environment whose byte loader throws an invocation-level error. -/
def envBoom : Env :=
  { cwd := "/"
    assertSandbox := fun f _ _ => .ok f
    stat := fun _ => .ok ()
    loadWebMedia := fun _ _ => .error "resource exhaustion" }

/-!  ## Invariant vocabulary for the detector  -/

/-- The de-duplication key of a reference: its lowercased raw value. -/
def keyOf (r : DetectedAudioRef) : List Char :=
  lowerL r.raw.data

/-- `s` ends, case-insensitively, in a dot followed by one of the recognized
extensions (the guarantee every raw emitted by the regex patterns carries). -/
def endsWithRecognizedExt (s : String) : Prop :=
  ∃ e ∈ audioExtNames, ∃ t, lowerL s.data = t ++ '.' :: e.data

/-- What detection guarantees of every emitted reference: it is `path`-kind;
its raw passed the `isAudioExtension` gate (marker/bare patterns) or at least
ends in a recognized extension (`file://` pattern); its `resolved` field is the
`~`-expansion rule applied to raw (marker/bare) or the URL-to-path conversion
of raw (`file://`). -/
def RefOK (ru : String → String) (fu : String → Option String) (r : DetectedAudioRef) : Prop :=
  r.type = RefType.path ∧
    (isAudioExtension r.raw = true ∨ endsWithRecognizedExt r.raw) ∧
    (r.resolved = (if r.raw.data.head? = some '~' then ru r.raw else r.raw) ∨
      fu r.raw = some r.resolved)

/-- Invariant of the detection pass: every emitted key is registered in
`seen`, keys are pairwise distinct, and every ref satisfies `RefOK`. -/
structure InvS (ru : String → String) (fu : String → Option String) (st : DetectState) : Prop where
  mem : ∀ r ∈ st.refs, keyOf r ∈ st.seen
  nodup : (st.refs.map keyOf).Nodup
  ok : ∀ r ∈ st.refs, RefOK ru fu r

/-- Concatenation of per-reference call traces. -/
def concatL (f : DetectedAudioRef → List EnvCall) : List DetectedAudioRef → List EnvCall
  | [] => []
  | a :: as => f a ++ concatL f as

end Audio

/-!  # Theorems  -/

namespace Audio

lemma nodup_snoc {α : Type _} {l : List α} {a : α} (hl : l.Nodup) (ha : a ∉ l) :
    (l ++ [a]).Nodup := by
  simp [List.nodup_append, hl, ha]

/-- Characterisation of the loader on `path` refs with a sandbox root. -/
lemma loadT_path_sandbox (env : Env) (ref : DetectedAudioRef) (w root : String)
    (mb : Option Nat) (ht : ref.type = RefType.path) (hroot : ¬(root = "")) :
    loadAudioFromRefT env ref w ⟨mb, some root⟩ =
      (let t1 := targetAfterResolve env ref w ⟨mb, some root⟩
       match env.assertSandbox t1 root root with
       | .error _ => (none, [EnvCall.sandbox t1 root root])
       | .ok v =>
         match env.stat v with
         | .error _ => (none, [EnvCall.sandbox t1 root root, EnvCall.stat v])
         | .ok _ =>
           match env.loadWebMedia v mb with
           | .error _ =>
             (none, [EnvCall.sandbox t1 root root, EnvCall.stat v, EnvCall.load v mb])
           | .ok m =>
             (if m.kind ≠ "audio" ∧ m.kind ≠ "video" then none
              else some { data := String.mk (base64Encode m.buffer),
                          mimeType := m.contentType.getD "audio/mp3" },
              [EnvCall.sandbox t1 root root, EnvCall.stat v, EnvCall.load v mb])) := by
  have hne : ¬(ref.type = RefType.url) := by rw [ht]; intro h; cases h
  simp only [loadAudioFromRefT, loadAudioTryBody, loadStage2, loadStage3, ht, hne, hroot,
    not_false_eq_true, and_true, and_self, if_false, if_true, ite_true, ite_false]
  cases hsb : env.assertSandbox (targetAfterResolve env ref w ⟨mb, some root⟩) root root with
  | error e => simp [hsb]
  | ok v =>
    cases hst : env.stat v with
    | error e => simp [hsb, hst]
    | ok u =>
      cases hlm : env.loadWebMedia v mb with
      | error e => simp [hsb, hst, hlm]
      | ok m =>
        by_cases hk : m.kind ≠ "audio" ∧ m.kind ≠ "video" <;> simp [hsb, hst, hlm, hk]

/-- Characterisation of the loader on `path` refs without a sandbox root. -/
lemma loadT_path_nosandbox (env : Env) (ref : DetectedAudioRef) (w : String)
    (mb : Option Nat) (ht : ref.type = RefType.path) :
    loadAudioFromRefT env ref w ⟨mb, none⟩ =
      (let t1 := targetAfterResolve env ref w ⟨mb, none⟩
       match env.stat t1 with
       | .error _ => (none, [EnvCall.stat t1])
       | .ok _ =>
         match env.loadWebMedia t1 mb with
         | .error _ => (none, [EnvCall.stat t1, EnvCall.load t1 mb])
         | .ok m =>
           (if m.kind ≠ "audio" ∧ m.kind ≠ "video" then none
            else some { data := String.mk (base64Encode m.buffer),
                        mimeType := m.contentType.getD "audio/mp3" },
            [EnvCall.stat t1, EnvCall.load t1 mb])) := by
  have hne : ¬(ref.type = RefType.url) := by rw [ht]; intro h; cases h
  simp only [loadAudioFromRefT, loadAudioTryBody, loadStage2, loadStage3, ht, hne,
    if_false, if_true, ite_true, ite_false]
  cases hst : env.stat (targetAfterResolve env ref w ⟨mb, none⟩) with
  | error e => simp [hst]
  | ok u =>
    cases hlm : env.loadWebMedia (targetAfterResolve env ref w ⟨mb, none⟩) mb with
    | error e => simp [hst, hlm]
    | ok m =>
      by_cases hk : m.kind ≠ "audio" ∧ m.kind ≠ "video" <;> simp [hst, hlm, hk]

/-- Characterisation of the loader on `path` refs with a falsy (empty-string)
sandbox root: the sandbox stage is skipped (JS truthiness gate,
audio.ts:143), exactly as with no sandbox root, except that the empty string
still serves as the resolve base inside `targetAfterResolve`. -/
lemma loadT_path_sandbox_empty (env : Env) (ref : DetectedAudioRef) (w : String)
    (mb : Option Nat) (ht : ref.type = RefType.path) :
    loadAudioFromRefT env ref w ⟨mb, some ""⟩ =
      (let t1 := targetAfterResolve env ref w ⟨mb, some ""⟩
       match env.stat t1 with
       | .error _ => (none, [EnvCall.stat t1])
       | .ok _ =>
         match env.loadWebMedia t1 mb with
         | .error _ => (none, [EnvCall.stat t1, EnvCall.load t1 mb])
         | .ok m =>
           (if m.kind ≠ "audio" ∧ m.kind ≠ "video" then none
            else some { data := String.mk (base64Encode m.buffer),
                        mimeType := m.contentType.getD "audio/mp3" },
            [EnvCall.stat t1, EnvCall.load t1 mb])) := by
  have hne : ¬(ref.type = RefType.url) := by rw [ht]; intro h; cases h
  simp only [loadAudioFromRefT, loadAudioTryBody, loadStage2, loadStage3, ht, hne,
    not_true_eq_false, and_false, if_false, if_true, ite_true, ite_false]
  cases hst : env.stat (targetAfterResolve env ref w ⟨mb, some ""⟩) with
  | error e => simp [hst]
  | ok u =>
    cases hlm : env.loadWebMedia (targetAfterResolve env ref w ⟨mb, some ""⟩) mb with
    | error e => simp [hst, hlm]
    | ok m =>
      by_cases hk : m.kind ≠ "audio" ∧ m.kind ≠ "video" <;> simp [hst, hlm, hk]

/-- The loader rejects `url` refs immediately with an empty trace. -/
lemma loadT_url (env : Env) (ref : DetectedAudioRef) (w : String) (o : LoadOptions)
    (ht : ref.type = RefType.url) :
    loadAudioFromRefT env ref w o = (none, []) := by
  simp [loadAudioFromRefT, loadAudioTryBody, ht]

/-- When the resolved path is absolute, the relative-resolution step is the
identity. -/
lemma targetAfterResolve_abs (env : Env) (ref : DetectedAudioRef) (w : String)
    (o : LoadOptions) (h : pathIsAbsolute ref.resolved = true) :
    targetAfterResolve env ref w o = ref.resolved := by
  simp [targetAfterResolve, h]

end Audio

namespace Audio

lemma filter_some_none_length (f : DetectedAudioRef → Option AudioContent)
    (rs : List DetectedAudioRef) :
    (rs.filter (fun r => (f r).isSome)).length +
      (rs.filter (fun r => (f r).isNone)).length = rs.length := by
  induction rs with
  | nil => simp
  | cons r rs ih =>
    cases h : f r <;> simp [List.filter_cons, h] <;> omega

/-- Characterisation of the orchestrator's per-reference loop. -/
lemma loadLoop_eq (env : Env) (w : String) (o : LoadOptions) :
    ∀ (rs : List DetectedAudioRef) (acc : List AudioContent) (l s : Nat) (tr : List EnvCall),
      loadLoop env w o rs acc l s tr =
        (⟨acc ++ rs.filterMap (fun r => loadAudioFromRef env r w o),
          l + (rs.filter (fun r => (loadAudioFromRef env r w o).isSome)).length,
          s + (rs.filter (fun r => (loadAudioFromRef env r w o).isNone)).length⟩,
         tr ++ concatL (fun r => (loadAudioFromRefT env r w o).2) rs) := by
  intro rs
  induction rs with
  | nil => intro acc l s tr; simp [loadLoop, concatL]
  | cons r rs ih =>
    intro acc l s tr
    rcases hr : loadAudioFromRefT env r w o with ⟨a?, t⟩
    have hl : loadAudioFromRef env r w o = a? := by simp [loadAudioFromRef, hr]
    cases a? with
    | some a =>
      simp only [loadLoop, hr, ih, List.filterMap_cons, List.filter_cons, concatL, hl,
        Option.isSome_some, Option.isNone_some, if_true, if_false, cond_true, cond_false,
        BatchResult.mk.injEq, Prod.mk.injEq, List.append_assoc, List.singleton_append]
      refine ⟨⟨?_, ?_, ?_⟩, ?_⟩ <;> first | trivial | rfl | (simp only [List.length_cons]; omega)
    | none =>
      simp only [loadLoop, hr, ih, List.filterMap_cons, List.filter_cons, concatL, hl,
        Option.isSome_none, Option.isNone_none, if_true, if_false, cond_true, cond_false,
        BatchResult.mk.injEq, Prod.mk.injEq, List.append_assoc, List.singleton_append]
      refine ⟨⟨?_, ?_, ?_⟩, ?_⟩ <;> first | trivial | rfl | (simp only [List.length_cons]; omega)

end Audio

namespace Audio

/-- C1: for path-kind references with `options.sandboxRoot` set (to a truthy
value — the source's gate at audio.ts:143 is the JS truthiness test
`options?.sandboxRoot`, so "provided" means a non-empty string), the loader
submits the resolved path to the sandbox primitive with both `cwd` and `root`
equal to the sandbox root (the trace starts with exactly that call); on
rejection it returns `null` having performed no stat and no byte load; on
success every stat and byte-load call operates on the primitive's
canonicalised result, never on the pre-validation path. -/
theorem claim_C1_sandbox_gate (env : Env) (ref : DetectedAudioRef) (w root : String)
    (mb : Option Nat) (ht : ref.type = RefType.path) (hroot : ¬(root = "")) :
    (∃ tl, (loadAudioFromRefT env ref w ⟨mb, some root⟩).2 =
        EnvCall.sandbox (targetAfterResolve env ref w ⟨mb, some root⟩) root root :: tl) ∧
    (∀ e, env.assertSandbox (targetAfterResolve env ref w ⟨mb, some root⟩) root root =
        .error e →
      loadAudioFromRef env ref w ⟨mb, some root⟩ = none ∧
      (loadAudioFromRefT env ref w ⟨mb, some root⟩).2 =
        [EnvCall.sandbox (targetAfterResolve env ref w ⟨mb, some root⟩) root root]) ∧
    (∀ v, env.assertSandbox (targetAfterResolve env ref w ⟨mb, some root⟩) root root =
        .ok v →
      (∀ p, EnvCall.stat p ∈ (loadAudioFromRefT env ref w ⟨mb, some root⟩).2 → p = v) ∧
      (∀ p m, EnvCall.load p m ∈ (loadAudioFromRefT env ref w ⟨mb, some root⟩).2 → p = v)) := by
  have hT := loadT_path_sandbox env ref w root mb ht hroot
  cases hsb : env.assertSandbox (targetAfterResolve env ref w ⟨mb, some root⟩) root root with
  | error e0 =>
    simp only [hsb] at hT
    refine ⟨⟨[], by rw [hT]⟩, ?_, ?_⟩
    · intro e he
      exact ⟨by simp [loadAudioFromRef, hT], by rw [hT]⟩
    · intro v hv
      cases hv
  | ok v =>
    simp only [hsb] at hT
    have htr : (loadAudioFromRefT env ref w ⟨mb, some root⟩).2 =
        EnvCall.sandbox (targetAfterResolve env ref w ⟨mb, some root⟩) root root ::
          (loadAudioFromRefT env ref w ⟨mb, some root⟩).2.tail ∧
        (∀ p, EnvCall.stat p ∈ (loadAudioFromRefT env ref w ⟨mb, some root⟩).2 → p = v) ∧
        (∀ p m, EnvCall.load p m ∈ (loadAudioFromRefT env ref w ⟨mb, some root⟩).2 → p = v) := by
      cases hst : env.stat v with
      | error e1 =>
        simp only [hst] at hT
        rw [hT]
        refine ⟨rfl, ?_, ?_⟩ <;> intro p <;> simp +contextual
      | ok u =>
        cases hlm : env.loadWebMedia v mb with
        | error e2 =>
          simp only [hst, hlm] at hT
          rw [hT]
          refine ⟨rfl, ?_, ?_⟩ <;> intro p <;> simp +contextual
        | ok m =>
          simp only [hst, hlm] at hT
          rw [hT]
          refine ⟨rfl, ?_, ?_⟩ <;> intro p <;> simp +contextual
    refine ⟨⟨(loadAudioFromRefT env ref w ⟨mb, some root⟩).2.tail, htr.1⟩, ?_, ?_⟩
    · intro e he
      cases he
    · intro v2 hv2
      injection hv2 with hvv
      subst hvv
      exact htr.2

/-- C1 witness: a relative path under a sandbox root whose assertion rejects:
the loader returns `null` and the trace is exactly the one sandbox call (no
stat, no byte load), on the path resolved against the sandbox root. -/
theorem claim_C1_sandbox_gate_witness :
    targetAfterResolve envReject ⟨"../x.mp3", RefType.path, "../x.mp3", none⟩ "/w"
        ⟨none, some "/sand"⟩ = "/x.mp3" ∧
    loadAudioFromRef envReject ⟨"../x.mp3", RefType.path, "../x.mp3", none⟩ "/w"
        ⟨none, some "/sand"⟩ = none ∧
    (loadAudioFromRefT envReject ⟨"../x.mp3", RefType.path, "../x.mp3", none⟩ "/w"
        ⟨none, some "/sand"⟩).2 =
      [EnvCall.sandbox (targetAfterResolve envReject
        ⟨"../x.mp3", RefType.path, "../x.mp3", none⟩ "/w" ⟨none, some "/sand"⟩)
        "/sand" "/sand"] := by
  refine ⟨by decide, ?_⟩
  exact (claim_C1_sandbox_gate envReject ⟨"../x.mp3", RefType.path, "../x.mp3", none⟩
    "/w" "/sand" none rfl (by decide)).2.1 "path escapes sandbox root" rfl

end Audio

namespace Audio

/-- C2: the loader never lets a failure escape as anything but `null`:
url-kind references, sandbox rejections, stat failures, byte-load
invocation errors and non-audio/video classifications all yield `none`, and
any `some` result is a fully populated content object built from a
successful byte load of kind audio or video. -/
theorem claim_C2_loader_total (env : Env) (ref : DetectedAudioRef) (w : String)
    (o : LoadOptions) :
    (ref.type = RefType.url → loadAudioFromRef env ref w o = none) ∧
    (∀ root e, ref.type = RefType.path → o.sandboxRoot = some root → ¬(root = "") →
      env.assertSandbox (targetAfterResolve env ref w o) root root = .error e →
      loadAudioFromRef env ref w o = none) ∧
    (∀ p e, ref.type = RefType.path → targetFinal env ref w o = some p →
      env.stat p = .error e → loadAudioFromRef env ref w o = none) ∧
    (∀ p e, ref.type = RefType.path → targetFinal env ref w o = some p →
      env.stat p = .ok () → env.loadWebMedia p o.maxBytes = .error e →
      loadAudioFromRef env ref w o = none) ∧
    (∀ p m, ref.type = RefType.path → targetFinal env ref w o = some p →
      env.stat p = .ok () → env.loadWebMedia p o.maxBytes = .ok m →
      m.kind ≠ "audio" → m.kind ≠ "video" → loadAudioFromRef env ref w o = none) ∧
    (∀ a, loadAudioFromRef env ref w o = some a →
      ∃ p m, targetFinal env ref w o = some p ∧
        env.loadWebMedia p o.maxBytes = .ok m ∧
        (m.kind = "audio" ∨ m.kind = "video") ∧
        a = { data := String.mk (base64Encode m.buffer),
              mimeType := m.contentType.getD "audio/mp3" }) := by
  rcases o with ⟨mb, sr⟩
  cases href : ref.type with
  | url =>
    have hz : loadAudioFromRef env ref w ⟨mb, sr⟩ = none := by
      simp [loadAudioFromRef, loadT_url env ref w ⟨mb, sr⟩ href]
    refine ⟨fun _ => hz, fun _ _ h _ _ _ => hz, fun _ _ h _ _ => hz,
      fun _ _ h _ _ _ => hz, fun _ _ h _ _ _ _ _ => hz, fun a ha => ?_⟩
    rw [hz] at ha
    cases ha
  | path =>
    cases sr with
    | some root =>
      by_cases hroot : root = ""
      · subst hroot
        have hT := loadT_path_sandbox_empty env ref w mb href
        have hFv : targetFinal env ref w ⟨mb, some ""⟩ =
            some (targetAfterResolve env ref w ⟨mb, some ""⟩) := by
          simp [targetFinal]
        refine ⟨?_, ?_, ?_, ?_, ?_, ?_⟩
        · intro h; exact absurd h (by decide)
        · intro root2 e _ hr2 hr2ne
          injection hr2 with hr2e
          exact absurd hr2e.symm hr2ne
        · intro p e _ hp hst
          rw [hFv] at hp
          injection hp with hpe
          subst hpe
          simp only [hst] at hT
          simp [loadAudioFromRef, hT]
        · intro p e _ hp hst hlm
          rw [hFv] at hp
          injection hp with hpe
          subst hpe
          simp only [hst, hlm] at hT
          simp [loadAudioFromRef, hT]
        · intro p m _ hp hst hlm hk1 hk2
          rw [hFv] at hp
          injection hp with hpe
          subst hpe
          simp only [hst, hlm] at hT
          simp [loadAudioFromRef, hT, hk1, hk2]
        · intro a ha
          cases hst : env.stat (targetAfterResolve env ref w ⟨mb, some ""⟩) with
          | error e1 =>
            simp only [hst] at hT
            rw [loadAudioFromRef, hT] at ha
            cases ha
          | ok u =>
            cases hlm : env.loadWebMedia (targetAfterResolve env ref w ⟨mb, some ""⟩) mb with
            | error e2 =>
              simp only [hst, hlm] at hT
              rw [loadAudioFromRef, hT] at ha
              cases ha
            | ok m =>
              simp only [hst, hlm] at hT
              rw [loadAudioFromRef, hT] at ha
              by_cases hk : m.kind ≠ "audio" ∧ m.kind ≠ "video"
              · rw [if_pos hk] at ha; cases ha
              · rw [if_neg hk] at ha
                injection ha with hae
                refine ⟨targetAfterResolve env ref w ⟨mb, some ""⟩, m, hFv, hlm, ?_, hae.symm⟩
                by_cases h1 : m.kind = "audio"
                · exact Or.inl h1
                · exact Or.inr (by_contra fun h2 => hk ⟨h1, h2⟩)
      · have hT := loadT_path_sandbox env ref w root mb href hroot
        have hF : targetFinal env ref w ⟨mb, some root⟩ =
            (env.assertSandbox (targetAfterResolve env ref w ⟨mb, some root⟩) root root).toOption := by
          simp [targetFinal, href, hroot]
        cases hsb : env.assertSandbox (targetAfterResolve env ref w ⟨mb, some root⟩) root root with
        | error e0 =>
          simp only [hsb] at hT
          have hz : loadAudioFromRef env ref w ⟨mb, some root⟩ = none := by
            simp [loadAudioFromRef, hT]
          have hFn : targetFinal env ref w ⟨mb, some root⟩ = none := by
            rw [hF, hsb]; rfl
          refine ⟨?_, fun _ _ _ _ _ _ => hz, ?_, ?_, ?_, ?_⟩
          · intro h; exact absurd h (by decide)
          · intro p e _ hp; rw [hFn] at hp; cases hp
          · intro p e _ hp; rw [hFn] at hp; cases hp
          · intro p m _ hp; rw [hFn] at hp; cases hp
          · intro a ha; rw [hz] at ha; cases ha
        | ok v =>
          have hFv : targetFinal env ref w ⟨mb, some root⟩ = some v := by
            rw [hF, hsb]; rfl
          simp only [hsb] at hT
          refine ⟨?_, fun root2 e _ hr2 _ he => ?_, ?_, ?_, ?_, ?_⟩
          · intro h; exact absurd h (by decide)
          · injection hr2 with hr2e
            subst hr2e
            rw [hsb] at he
            cases he
          · intro p e _ hp hst
            rw [hFv] at hp
            injection hp with hpe
            subst hpe
            simp only [hst] at hT
            simp [loadAudioFromRef, hT]
          · intro p e _ hp hst hlm
            rw [hFv] at hp
            injection hp with hpe
            subst hpe
            simp only [hst, hlm] at hT
            simp [loadAudioFromRef, hT]
          · intro p m _ hp hst hlm hk1 hk2
            rw [hFv] at hp
            injection hp with hpe
            subst hpe
            simp only [hst, hlm] at hT
            simp [loadAudioFromRef, hT, hk1, hk2]
          · intro a ha
            cases hst : env.stat v with
            | error e1 =>
              simp only [hst] at hT
              rw [loadAudioFromRef, hT] at ha
              cases ha
            | ok u =>
              cases hlm : env.loadWebMedia v mb with
              | error e2 =>
                simp only [hst, hlm] at hT
                rw [loadAudioFromRef, hT] at ha
                cases ha
              | ok m =>
                simp only [hst, hlm] at hT
                rw [loadAudioFromRef, hT] at ha
                by_cases hk : m.kind ≠ "audio" ∧ m.kind ≠ "video"
                · rw [if_pos hk] at ha; cases ha
                · rw [if_neg hk] at ha
                  injection ha with hae
                  refine ⟨v, m, hFv, hlm, ?_, hae.symm⟩
                  by_cases h1 : m.kind = "audio"
                  · exact Or.inl h1
                  · exact Or.inr (by_contra fun h2 => hk ⟨h1, h2⟩)
    | none =>
      have hT := loadT_path_nosandbox env ref w mb href
      have hFv : targetFinal env ref w ⟨mb, none⟩ =
          some (targetAfterResolve env ref w ⟨mb, none⟩) := by
        simp [targetFinal]
      refine ⟨?_, ?_, ?_, ?_, ?_, ?_⟩
      · intro h; exact absurd h (by decide)
      · intro root2 e _ hr2; cases hr2
      · intro p e _ hp hst
        rw [hFv] at hp
        injection hp with hpe
        subst hpe
        simp only [hst] at hT
        simp [loadAudioFromRef, hT]
      · intro p e _ hp hst hlm
        rw [hFv] at hp
        injection hp with hpe
        subst hpe
        simp only [hst, hlm] at hT
        simp [loadAudioFromRef, hT]
      · intro p m _ hp hst hlm hk1 hk2
        rw [hFv] at hp
        injection hp with hpe
        subst hpe
        simp only [hst, hlm] at hT
        simp [loadAudioFromRef, hT, hk1, hk2]
      · intro a ha
        cases hst : env.stat (targetAfterResolve env ref w ⟨mb, none⟩) with
        | error e1 =>
          simp only [hst] at hT
          rw [loadAudioFromRef, hT] at ha
          cases ha
        | ok u =>
          cases hlm : env.loadWebMedia (targetAfterResolve env ref w ⟨mb, none⟩) mb with
          | error e2 =>
            simp only [hst, hlm] at hT
            rw [loadAudioFromRef, hT] at ha
            cases ha
          | ok m =>
            simp only [hst, hlm] at hT
            rw [loadAudioFromRef, hT] at ha
            by_cases hk : m.kind ≠ "audio" ∧ m.kind ≠ "video"
            · rw [if_pos hk] at ha; cases ha
            · rw [if_neg hk] at ha
              injection ha with hae
              refine ⟨targetAfterResolve env ref w ⟨mb, none⟩, m, hFv, hlm, ?_, hae.symm⟩
              by_cases h1 : m.kind = "audio"
              · exact Or.inl h1
              · exact Or.inr (by_contra fun h2 => hk ⟨h1, h2⟩)

/-- C2 witness: a url-kind reference is rejected with `null`. -/
theorem claim_C2_loader_total_witness :
    loadAudioFromRef envOk ⟨"http://x/a.mp3", RefType.url, "http://x/a.mp3", none⟩ "/w"
      ⟨none, none⟩ = none :=
  (claim_C2_loader_total envOk ⟨"http://x/a.mp3", RefType.url, "http://x/a.mp3", none⟩
    "/w" ⟨none, none⟩).1 rfl

end Audio

namespace Audio

/-- C6 counterexample: an invocation-level byte-loader error ("resource
exhaustion") on a reference that passed resolution and the existence probe
reaches the end of the try block as an exception, but `loadAudioFromRef`'s
outer catch converts it to `null`, and the orchestrator counts it as a skip —
it does not propagate to the orchestrator's caller. -/
theorem claim_C6_counterexample :
    loadAudioTryBody envBoom ⟨"/a.mp3", RefType.path, "/a.mp3", none⟩ "/w" ⟨none, none⟩ =
      .error ("resource exhaustion", [EnvCall.stat "/a.mp3", EnvCall.load "/a.mp3" none]) ∧
    loadAudioFromRef envBoom ⟨"/a.mp3", RefType.path, "/a.mp3", none⟩ "/w" ⟨none, none⟩ =
      none ∧
    detectAndLoadPromptAudio envBoom resolveUserPathModel fileURLToPathModel
      { prompt := "/a.mp3", workspaceDir := "/w", model := ⟨some ["audio"]⟩ } =
      ⟨[], 0, 1⟩ := by
  refine ⟨rfl, rfl, ?_⟩
  decide

/-- C6 as amended: when the byte-loading primitive fails with an
invocation-level error on a reference that passed the earlier stages, the
exception reaches the end of the try block but is intercepted by
`loadAudioFromRef`'s outer catch and converted to `null`; it is not
propagated. -/
theorem claim_C6_amended (env : Env) (ref : DetectedAudioRef) (w : String)
    (o : LoadOptions) (p e : String) (ht : ref.type = RefType.path)
    (hp : targetFinal env ref w o = some p) (hst : env.stat p = .ok ())
    (hlm : env.loadWebMedia p o.maxBytes = .error e) :
    (∃ tr, loadAudioTryBody env ref w o = .error (e, tr)) ∧
    loadAudioFromRef env ref w o = none := by
  have hne : ¬(ref.type = RefType.url) := by rw [ht]; intro hq; cases hq
  rcases o with ⟨mb, sr⟩
  cases sr with
  | some root =>
    by_cases hroot : root = ""
    · subst hroot
      have hp2 : targetAfterResolve env ref w ⟨mb, some ""⟩ = p := by
        have hq := hp
        simp [targetFinal] at hq
        exact hq
      have hB : loadAudioTryBody env ref w ⟨mb, some ""⟩ =
          .error (e, [EnvCall.stat p, EnvCall.load p mb]) := by
        simp only [loadAudioTryBody, loadStage2, loadStage3, ht, hne, not_true_eq_false,
          and_false, if_false, ite_false, if_true, ite_true, hp2, hst, hlm]
        simp
      exact ⟨⟨_, hB⟩, by simp [loadAudioFromRef, loadAudioFromRefT, hB]⟩
    · have hF : targetFinal env ref w ⟨mb, some root⟩ =
          (env.assertSandbox (targetAfterResolve env ref w ⟨mb, some root⟩) root root).toOption := by
        simp [targetFinal, ht, hroot]
      cases hsb : env.assertSandbox (targetAfterResolve env ref w ⟨mb, some root⟩) root root with
      | error e0 =>
        rw [hF, hsb] at hp
        cases hp
      | ok v =>
        rw [hF, hsb] at hp
        injection hp with hpe
        subst hpe
        have hB : loadAudioTryBody env ref w ⟨mb, some root⟩ =
            .error (e, [EnvCall.sandbox (targetAfterResolve env ref w ⟨mb, some root⟩) root root,
              EnvCall.stat v, EnvCall.load v mb]) := by
          simp only [loadAudioTryBody, loadStage2, loadStage3, ht, hne, hroot,
            not_false_eq_true, and_true, and_self, if_false, ite_false,
            if_true, ite_true, hsb, hst, hlm]
          simp
        exact ⟨⟨_, hB⟩, by simp [loadAudioFromRef, loadAudioFromRefT, hB]⟩
  | none =>
    have hp2 : targetAfterResolve env ref w ⟨mb, none⟩ = p := by
      have := hp
      simp [targetFinal] at this
      exact this
    have hB : loadAudioTryBody env ref w ⟨mb, none⟩ =
        .error (e, [EnvCall.stat p, EnvCall.load p mb]) := by
      simp only [loadAudioTryBody, loadStage2, loadStage3, ht, hne, if_false, ite_false,
        if_true, ite_true, hp2, hst, hlm]
      simp
    exact ⟨⟨_, hB⟩, by simp [loadAudioFromRef, loadAudioFromRefT, hB]⟩

/-- C6 amended witness. -/
theorem claim_C6_amended_witness :
    (∃ tr, loadAudioTryBody envBoom ⟨"/b/c.wav", RefType.path, "/b/c.wav", none⟩ "/w"
        ⟨none, none⟩ = .error ("resource exhaustion", tr)) ∧
    loadAudioFromRef envBoom ⟨"/b/c.wav", RefType.path, "/b/c.wav", none⟩ "/w"
      ⟨none, none⟩ = none :=
  claim_C6_amended envBoom ⟨"/b/c.wav", RefType.path, "/b/c.wav", none⟩ "/w"
    ⟨none, none⟩ "/b/c.wav" "resource exhaustion" rfl (by decide) rfl rfl

/-- C10: without `options.sandboxRoot` the loader performs no containment
check at all: the trace contains no sandbox call, the result is independent of
`workspaceDir` for absolute resolved paths, and an existing file that
classifies as audio or video is loaded and returned even though nothing
relates its path to `workspaceDir`. -/
theorem claim_C10_no_boundary_without_sandbox (env : Env) (ref : DetectedAudioRef)
    (w : String) (mb : Option Nat) (ht : ref.type = RefType.path)
    (habs : pathIsAbsolute ref.resolved = true) :
    (∀ f c r, EnvCall.sandbox f c r ∉ (loadAudioFromRefT env ref w ⟨mb, none⟩).2) ∧
    (∀ w2, loadAudioFromRefT env ref w ⟨mb, none⟩ = loadAudioFromRefT env ref w2 ⟨mb, none⟩) ∧
    (∀ m : MediaResult, env.stat ref.resolved = .ok () →
      env.loadWebMedia ref.resolved mb = .ok m → (m.kind = "audio" ∨ m.kind = "video") →
      loadAudioFromRef env ref w ⟨mb, none⟩ =
        some { data := String.mk (base64Encode m.buffer),
               mimeType := m.contentType.getD "audio/mp3" }) := by
  have hT := loadT_path_nosandbox env ref w mb ht
  rw [targetAfterResolve_abs env ref w ⟨mb, none⟩ habs] at hT
  refine ⟨?_, ?_, ?_⟩
  · intro f c r
    cases hst : env.stat ref.resolved with
    | error e1 =>
      simp only [hst] at hT
      rw [hT]
      simp
    | ok u =>
      cases hlm : env.loadWebMedia ref.resolved mb with
      | error e2 =>
        simp only [hst, hlm] at hT
        rw [hT]
        simp
      | ok m =>
        simp only [hst, hlm] at hT
        rw [hT]
        simp
  · intro w2
    have hT2 := loadT_path_nosandbox env ref w2 mb ht
    rw [targetAfterResolve_abs env ref w2 ⟨mb, none⟩ habs] at hT2
    rw [hT, hT2]
  · intro m hst hlm hk
    simp only [hst, hlm] at hT
    have hcond : ¬(m.kind ≠ "audio" ∧ m.kind ≠ "video") := by
      intro hc
      cases hk with
      | inl h1 => exact hc.1 h1
      | inr h2 => exact hc.2 h2
    simp [loadAudioFromRef, hT, hcond]

/-- C10 witness: an absolute path entirely outside the workspace directory is
loaded and returned when no sandbox root is configured. -/
theorem claim_C10_no_boundary_without_sandbox_witness :
    loadAudioFromRef envOk ⟨"/outside/a.mp3", RefType.path, "/outside/a.mp3", none⟩
      "/workspace" ⟨none, none⟩ = some ⟨"AQID", "audio/mpeg"⟩ := by
  have h := (claim_C10_no_boundary_without_sandbox envOk
    ⟨"/outside/a.mp3", RefType.path, "/outside/a.mp3", none⟩ "/workspace" none rfl
    (by decide)).2.2 ⟨"audio", some "audio/mpeg", [1, 2, 3]⟩ rfl rfl (Or.inl rfl)
  rw [h]
  decide

end Audio

namespace Audio

/-- C4: `modelSupportsAudio` is true exactly when the declared input list
contains "audio" or "image" (false when absent), and a non-qualifying model
makes `detectAndLoadPromptAudio` return the empty result regardless of the
prompt and of any supplied `existingAudio` (and without any loader call). -/
theorem claim_C4_capability_gate :
    (∀ m : ModelDesc, modelSupportsAudio m = true ↔
      ∃ l, m.input = some l ∧ ("audio" ∈ l ∨ "image" ∈ l)) ∧
    (∀ (env : Env) (ru : String → String) (fu : String → Option String) (p : BatchParams),
      modelSupportsAudio p.model = false →
      detectAndLoadPromptAudioT env ru fu p = (⟨[], 0, 0⟩, [])) := by
  constructor
  · intro m
    rcases m with ⟨input⟩
    cases input with
    | none => simp [modelSupportsAudio]
    | some l =>
      simp [modelSupportsAudio, List.contains_iff_exists_mem_beq]
  · intro env ru fu p h
    simp [detectAndLoadPromptAudioT, h]

/-- C4 witness: a text-only model short-circuits even though the prompt holds
a valid reference and `existingAudio` is supplied. -/
theorem claim_C4_capability_gate_witness :
    detectAndLoadPromptAudioT envOk resolveUserPathModel fileURLToPathModel
      { prompt := "see /a/b.mp3", workspaceDir := "/w", model := ⟨some ["text"]⟩,
        existingAudio := some [⟨"x", "audio/mp3"⟩] } = (⟨[], 0, 0⟩, []) :=
  claim_C4_capability_gate.2 envOk resolveUserPathModel fileURLToPathModel
    { prompt := "see /a/b.mp3", workspaceDir := "/w", model := ⟨some ["text"]⟩,
      existingAudio := some [⟨"x", "audio/mp3"⟩] } (by decide)

/-- C5: on a qualifying call with at least one detected reference, every
reference contributes to exactly one of the two counters (they sum to the
number of detected references, and are the success/failure counts of the
loader over the references), and the returned audio list is the carried
`existingAudio` first followed by the successfully loaded contents in
detection order. -/
theorem claim_C5_counts_and_order (env : Env) (ru : String → String)
    (fu : String → Option String) (p : BatchParams)
    (hm : modelSupportsAudio p.model = true)
    (hne : detectAudioReferences ru fu p.prompt ≠ []) :
    (detectAndLoadPromptAudio env ru fu p).loadedCount +
        (detectAndLoadPromptAudio env ru fu p).skippedCount =
      (detectAudioReferences ru fu p.prompt).length ∧
    (detectAndLoadPromptAudio env ru fu p).loadedCount =
      ((detectAudioReferences ru fu p.prompt).filter
        (fun r => (loadAudioFromRef env r p.workspaceDir ⟨p.maxBytes, p.sandboxRoot⟩).isSome)).length ∧
    (detectAndLoadPromptAudio env ru fu p).skippedCount =
      ((detectAudioReferences ru fu p.prompt).filter
        (fun r => (loadAudioFromRef env r p.workspaceDir ⟨p.maxBytes, p.sandboxRoot⟩).isNone)).length ∧
    (detectAndLoadPromptAudio env ru fu p).audio =
      p.existingAudio.getD [] ++
        (detectAudioReferences ru fu p.prompt).filterMap
          (fun r => loadAudioFromRef env r p.workspaceDir ⟨p.maxBytes, p.sandboxRoot⟩) := by
  have hlen : ¬((detectAudioReferences ru fu p.prompt).length = 0) := by
    intro h
    exact hne (List.length_eq_zero.mp h)
  have hD : detectAndLoadPromptAudio env ru fu p =
      ⟨p.existingAudio.getD [] ++
        (detectAudioReferences ru fu p.prompt).filterMap
          (fun r => loadAudioFromRef env r p.workspaceDir ⟨p.maxBytes, p.sandboxRoot⟩),
       ((detectAudioReferences ru fu p.prompt).filter
        (fun r => (loadAudioFromRef env r p.workspaceDir ⟨p.maxBytes, p.sandboxRoot⟩).isSome)).length,
       ((detectAudioReferences ru fu p.prompt).filter
        (fun r => (loadAudioFromRef env r p.workspaceDir ⟨p.maxBytes, p.sandboxRoot⟩).isNone)).length⟩ := by
    simp only [detectAndLoadPromptAudio, detectAndLoadPromptAudioT, hm, Bool.not_true,
      Bool.false_eq_true, if_false, ite_false, hlen, loadLoop_eq]
    simp
  rw [hD]
  refine ⟨?_, rfl, rfl, rfl⟩
  exact filter_some_none_length _ _

/-- C5 witness: two detected references under a fully permissive environment:
both load, counts are (2, 0), and the result appends the loaded items after
the carried one. -/
theorem claim_C5_counts_and_order_witness :
    modelSupportsAudio ⟨some ["audio"]⟩ = true ∧
    (detectAndLoadPromptAudio envOk resolveUserPathModel fileURLToPathModel
        { prompt := "/a.mp3 /b.wav", workspaceDir := "/w", model := ⟨some ["audio"]⟩,
          existingAudio := some [⟨"x", "audio/mp3"⟩] }).loadedCount +
      (detectAndLoadPromptAudio envOk resolveUserPathModel fileURLToPathModel
        { prompt := "/a.mp3 /b.wav", workspaceDir := "/w", model := ⟨some ["audio"]⟩,
          existingAudio := some [⟨"x", "audio/mp3"⟩] }).skippedCount =
      (detectAudioReferences resolveUserPathModel fileURLToPathModel "/a.mp3 /b.wav").length := by
  refine ⟨by decide, ?_⟩
  exact (claim_C5_counts_and_order envOk resolveUserPathModel fileURLToPathModel
    { prompt := "/a.mp3 /b.wav", workspaceDir := "/w", model := ⟨some ["audio"]⟩,
      existingAudio := some [⟨"x", "audio/mp3"⟩] } (by decide) (by decide)).1

/-- C7: a qualifying call whose prompt yields no references returns exactly
the carried `existingAudio` (or `[]` when absent) with zero counts, and the
call trace is empty: no loader invocation occurs. -/
theorem claim_C7_no_refs_frame (env : Env) (ru : String → String)
    (fu : String → Option String) (p : BatchParams)
    (hm : modelSupportsAudio p.model = true)
    (hd : detectAudioReferences ru fu p.prompt = []) :
    detectAndLoadPromptAudioT env ru fu p = (⟨p.existingAudio.getD [], 0, 0⟩, []) := by
  simp [detectAndLoadPromptAudioT, hm, hd]

/-- C7 witness: a reference-free prompt with supplied `existingAudio`. -/
theorem claim_C7_no_refs_frame_witness :
    detectAndLoadPromptAudioT envOk resolveUserPathModel fileURLToPathModel
      { prompt := "hello world", workspaceDir := "/w", model := ⟨some ["audio"]⟩,
        existingAudio := some [⟨"d", "audio/mp3"⟩] } =
      (⟨[⟨"d", "audio/mp3"⟩], 0, 0⟩, []) :=
  claim_C7_no_refs_frame envOk resolveUserPathModel fileURLToPathModel
    { prompt := "hello world", workspaceDir := "/w", model := ⟨some ["audio"]⟩,
      existingAudio := some [⟨"d", "audio/mp3"⟩] } (by decide) (by decide)

end Audio

namespace Audio

lemma stripLeadCI_spec : ∀ (pat s t r : List Char),
    stripLeadCI pat s = some (t, r) → lowerL t = pat ∧ s = t ++ r := by
  intro pat
  induction pat with
  | nil =>
    intro s t r h
    simp only [stripLeadCI, Option.some.injEq, Prod.mk.injEq] at h
    rcases h with ⟨h1, h2⟩
    subst h1; subst h2
    exact ⟨rfl, rfl⟩
  | cons p ps ih =>
    intro s t r h
    cases s with
    | nil => simp [stripLeadCI] at h
    | cons c cs =>
      simp only [stripLeadCI] at h
      by_cases hc : c.toLower = p
      · rw [if_pos hc] at h
        cases hst : stripLeadCI ps cs with
        | none => rw [hst] at h; cases h
        | some pr =>
          rcases pr with ⟨t2, r2⟩
          rw [hst] at h
          simp only [Option.some.injEq, Prod.mk.injEq] at h
          rcases h with ⟨h1, h2⟩
          subst h1; subst h2
          rcases ih cs t2 r2 hst with ⟨ih1, ih2⟩
          refine ⟨?_, by rw [ih2]; rfl⟩
          simp [lowerL] at ih1 ⊢
          exact ⟨hc, ih1⟩
      · rw [if_neg hc] at h
        cases h

lemma matchExtList_spec : ∀ (es : List String) (s t r : List Char),
    matchExtList es s = some (t, r) → ∃ e ∈ es, lowerL t = e.data ∧ s = t ++ r := by
  intro es
  induction es with
  | nil => intro s t r h; simp [matchExtList] at h
  | cons e es ih =>
    intro s t r h
    simp only [matchExtList] at h
    cases hst : stripLeadCI e.data s with
    | some pr =>
      rcases pr with ⟨t2, r2⟩
      rw [hst] at h
      simp only [Option.some.injEq, Prod.mk.injEq] at h
      rcases h with ⟨h1, h2⟩
      subst h1; subst h2
      rcases stripLeadCI_spec e.data s t2 r2 hst with ⟨h1, h2⟩
      exact ⟨e, List.mem_cons_self e es, h1, h2⟩
    | none =>
      rw [hst] at h
      rcases ih s t r h with ⟨e2, he2, h1, h2⟩
      exact ⟨e2, List.mem_cons_of_mem e he2, h1, h2⟩

lemma trySplitUrl_spec : ∀ (n : Nat) (s1 : List Char) (l : Nat) (ec r2 : List Char),
    trySplitUrl s1 n = some (l, ec, r2) →
    ∃ r, s1.drop l = '.' :: r ∧ matchExtCI r = some (ec, r2) := by
  intro n
  induction n with
  | zero => intro s1 l ec r2 h; simp [trySplitUrl] at h
  | succ k ih =>
    intro s1 l ec r2 h
    rw [trySplitUrl] at h
    split at h
    next x r heq =>
      cases hme : matchExtCI r with
      | some pr =>
        rcases pr with ⟨e0, r0⟩
        rw [hme] at h
        simp only [Option.some.injEq, Prod.mk.injEq] at h
        rcases h with ⟨h1, h2, h3⟩
        subst h1; subst h2; subst h3
        exact ⟨r, heq, hme⟩
      | none =>
        rw [hme] at h
        exact ih s1 l ec r2 h
    next x hne =>
      exact ih s1 l ec r2 h

lemma lowerL_append (a b : List Char) : lowerL (a ++ b) = lowerL a ++ lowerL b := by
  simp [lowerL]

lemma lowerL_dot_cons (x : List Char) : lowerL ('.' :: x) = '.' :: lowerL x := by
  simp [lowerL]

lemma matchFileUrlAt_ends (s raw after : List Char)
    (h : matchFileUrlAt s = some (raw, after)) :
    ∃ e ∈ audioExtNames, ∃ t, lowerL raw = t ++ '.' :: e.data := by
  simp only [matchFileUrlAt] at h
  split at h
  next => cases h
  next pre s1 heq =>
    split at h
    next l ec r2 heq2 =>
      simp only [Option.some.injEq, Prod.mk.injEq] at h
      rcases h with ⟨h1, h2⟩
      subst h1
      rcases trySplitUrl_spec _ s1 l ec r2 heq2 with ⟨r, hdrop, hext⟩
      rcases matchExtList_spec audioExtNames r ec r2 hext with ⟨e, he, hlow, hsplit⟩
      refine ⟨e, he, lowerL pre ++ lowerL (s1.take l), ?_⟩
      rw [lowerL_append, lowerL_append, lowerL_dot_cons, hlow, List.append_assoc]
    next => cases h

end Audio

namespace Audio

lemma keyOf_mk (l : List Char) (ty : RefType) (res : String) (mi : Option Nat) :
    keyOf ⟨String.mk l, ty, res, mi⟩ = lowerL l := rfl

lemma InvS.addSeen {ru : String → String} {fu : String → Option String} {st : DetectState}
    (h : InvS ru fu st) (ks : List (List Char)) :
    InvS ru fu { st with seen := st.seen ++ ks } :=
  ⟨fun r hr => List.mem_append_left ks (h.mem r hr), h.nodup, h.ok⟩

lemma InvS.push {ru : String → String} {fu : String → Option String} {st : DetectState}
    (h : InvS ru fu st) (r0 : DetectedAudioRef) (hkey : keyOf r0 ∉ st.seen)
    (hok : RefOK ru fu r0) :
    InvS ru fu { refs := st.refs ++ [r0], seen := st.seen ++ [keyOf r0] } := by
  refine ⟨?_, ?_, ?_⟩
  · intro r hr
    rcases List.mem_append.mp hr with hr | hr
    · exact List.mem_append_left _ (h.mem r hr)
    · rcases List.mem_singleton.mp hr with rfl
      exact List.mem_append_right _ (List.mem_singleton.mpr rfl)
  · rw [List.map_append]
    refine nodup_snoc h.nodup ?_
    intro hmem
    rcases List.mem_map.mp hmem with ⟨r, hr, hkr⟩
    exact hkey (hkr ▸ h.mem r hr)
  · intro r hr
    rcases List.mem_append.mp hr with hr | hr
    · exact h.ok r hr
    · rcases List.mem_singleton.mp hr with rfl
      exact hok

lemma addPathRef_inv (ru : String → String) (fu : String → Option String)
    (raw : List Char) (st : DetectState) (h : InvS ru fu st) :
    InvS ru fu (addPathRef ru raw st) := by
  rw [addPathRef]
  by_cases h1 : (jsTrim raw).isEmpty
  · simpa [h1] using h
  rw [if_neg h1]
  by_cases h2 : lowerL (jsTrim raw) ∈ st.seen
  · simpa [h2] using h
  rw [if_neg h2]
  by_cases h3 : leadsWith "http://".data (jsTrim raw) || leadsWith "https://".data (jsTrim raw)
  · simpa [h3] using h
  rw [if_neg (by simpa using h3)]
  by_cases h4 : isAudioExtensionL (jsTrim raw)
  · rw [if_neg (by simpa using h4)]
    have hok : RefOK ru fu
        ⟨String.mk (jsTrim raw), RefType.path,
          if (jsTrim raw).head? = some '~' then ru (String.mk (jsTrim raw))
          else String.mk (jsTrim raw), none⟩ := by
      refine ⟨rfl, Or.inl ?_, Or.inl rfl⟩
      simpa [isAudioExtension] using h4
    exact h.push _ (by simpa [keyOf_mk] using h2) hok
  · rw [if_pos (by simpa using h4)]
    exact h

lemma processMediaContent_inv (ru : String → String) (fu : String → Option String)
    (content : List Char) (st : DetectState) (h : InvS ru fu st) :
    InvS ru fu (processMediaContent ru content st) := by
  rw [processMediaContent]
  split
  · exact h
  · split
    · exact addPathRef_inv ru fu _ st h
    · exact h

lemma scanMedia_inv (ru : String → String) (fu : String → Option String) :
    ∀ (fuel : Nat) (s : List Char) (st : DetectState),
      InvS ru fu st → InvS ru fu (scanMedia ru fuel s st) := by
  intro fuel
  induction fuel with
  | zero =>
    intro s st h
    cases s <;> simpa [scanMedia] using h
  | succ n ih =>
    intro s st h
    cases s with
    | nil => simpa [scanMedia] using h
    | cons c rest =>
      rw [scanMedia]
      split
      · exact ih _ _ (processMediaContent_inv ru fu _ _ h)
      · exact ih _ _ h

lemma scanFileUrl_inv (ru : String → String) (fu : String → Option String) :
    ∀ (fuel : Nat) (s : List Char) (st : DetectState),
      InvS ru fu st → InvS ru fu (scanFileUrl fu fuel s st) := by
  intro fuel
  induction fuel with
  | zero =>
    intro s st h
    cases s <;> simpa [scanFileUrl] using h
  | succ n ih =>
    intro s st h
    cases s with
    | nil => simpa [scanFileUrl] using h
    | cons c rest =>
      rw [scanFileUrl]
      cases hm : matchFileUrlAt (c :: rest) with
      | none => exact ih _ _ h
      | some pr =>
        rcases pr with ⟨raw, after⟩
        apply ih
        by_cases hseen : lowerL raw ∈ st.seen
        · simpa [hseen] using h
        · rw [if_neg hseen]
          cases hfu : fu (String.mk raw) with
          | none => exact h.addSeen [lowerL raw]
          | some res =>
            have hok : RefOK ru fu ⟨String.mk raw, RefType.path, res, none⟩ := by
              refine ⟨rfl, Or.inr ?_, Or.inr hfu⟩
              rcases matchFileUrlAt_ends _ _ _ hm with ⟨e, he, t, ht⟩
              exact ⟨e, he, t, ht⟩
            exact h.push _ (by simpa [keyOf_mk] using hseen) hok

lemma scanBare_inv (ru : String → String) (fu : String → Option String) :
    ∀ (fuel : Nat) (s : List Char) (b : Bool) (st : DetectState),
      InvS ru fu st → InvS ru fu (scanBare ru fuel s b st) := by
  intro fuel
  induction fuel with
  | zero =>
    intro s b st h
    cases s <;> simpa [scanBare] using h
  | succ n ih =>
    intro s b st h
    cases s with
    | nil => simpa [scanBare] using h
    | cons c rest =>
      rw [scanBare]
      split
      · exact ih _ _ _ (addPathRef_inv ru fu _ st h)
      · split
        · split
          · exact ih _ _ _ (addPathRef_inv ru fu _ st h)
          · exact ih _ _ _ h
        · exact ih _ _ _ h

/-- The detection pass establishes the full invariant. -/
lemma detect_inv (ru : String → String) (fu : String → Option String) (prompt : String) :
    ((detectAudioReferences ru fu prompt).map keyOf).Nodup ∧
      ∀ r ∈ detectAudioReferences ru fu prompt, RefOK ru fu r := by
  have h0 : InvS ru fu {} := by
    refine ⟨?_, ?_, ?_⟩
    · intro r hr; cases hr
    · exact List.nodup_nil
    · intro r hr; cases hr
  have h1 := scanMedia_inv ru fu prompt.data.length prompt.data {} h0
  have h2 := scanFileUrl_inv ru fu prompt.data.length prompt.data _ h1
  have h3 := scanBare_inv ru fu prompt.data.length prompt.data true _ h2
  exact ⟨h3.nodup, h3.ok⟩

end Audio

namespace Audio

/-- C3: within one detection pass the emitted references have
case-insensitively unique raw values, the scan proceeding in the fixed order
structured-marker, then `file://` URL, then bare path (the definitional order
of `detectAudioReferences`), first match winning; in particular a path seen
once inside a marker and once bare yields exactly one reference, with the
marker occurrence's surface form (here its casing) winning. -/
theorem claim_C3_dedup_precedence :
    (∀ (ru : String → String) (fu : String → Option String) (prompt : String),
      ((detectAudioReferences ru fu prompt).map keyOf).Nodup) ∧
    detectAudioReferences resolveUserPathModel fileURLToPathModel
        "[media attached: /A/B.MP3] see /a/b.mp3" =
      [⟨"/A/B.MP3", RefType.path, "/A/B.MP3", none⟩] :=
  ⟨fun ru fu prompt => (detect_inv ru fu prompt).1, by decide⟩

/-- C8 counterexample: `file:///.mp3` is matched by the `file://` URL pattern
and emitted, although the code's own extension function (`path.extname`-based
`isAudioExtension`) assigns it no extension at all — the dotfile basename
`.mp3` has extension `""`, which is not in the recognized set.  The `file://`
scan path never applies `isAudioExtension`. -/
theorem claim_C8_counterexample :
    detectAudioReferences resolveUserPathModel fileURLToPathModel "file:///.mp3" =
      [⟨"file:///.mp3", RefType.path, "/.mp3", none⟩] ∧
    isAudioExtension "file:///.mp3" = false ∧
    isAudioExtension "/.mp3" = false ∧
    extnamePosix "file:///.mp3".data = [] := by decide

/-- C8 as amended: every emitted reference either passed the
`path.extname`-based `isAudioExtension` gate (structured-marker and bare-path
patterns) or — for the `file://` pattern, which applies no such gate — is at
least guaranteed to end, case-insensitively, in a dot followed by one of the
recognized extensions. -/
theorem claim_C8_extension_gate_amended (ru : String → String)
    (fu : String → Option String) (prompt : String) (r : DetectedAudioRef)
    (hr : r ∈ detectAudioReferences ru fu prompt) :
    isAudioExtension r.raw = true ∨ endsWithRecognizedExt r.raw :=
  ((detect_inv ru fu prompt).2 r hr).2.1

/-- C8 amended witness. -/
theorem claim_C8_extension_gate_amended_witness :
    isAudioExtension "/a/b.mp3" = true ∨ endsWithRecognizedExt "/a/b.mp3" :=
  claim_C8_extension_gate_amended resolveUserPathModel fileURLToPathModel "see /a/b.mp3"
    ⟨"/a/b.mp3", RefType.path, "/a/b.mp3", none⟩ (by decide)

/-- C9 counterexample: a `file://` reference has `resolved` equal to the
URL-to-path conversion of `raw`, not to `raw` itself, although `raw` does not
begin with `~`. -/
theorem claim_C9_counterexample :
    detectAudioReferences resolveUserPathModel fileURLToPathModel "file:///tmp/a.wav" =
      [⟨"file:///tmp/a.wav", RefType.path, "/tmp/a.wav", none⟩] ∧
    ¬(("file:///tmp/a.wav" : String).data.head? = some '~') ∧
    ("/tmp/a.wav" : String) ≠ "file:///tmp/a.wav" := by decide

/-- C9 as amended: for every emitted reference, `resolved` is the
`~`-expansion of `raw` when `raw` begins with `~` and `raw` unchanged
otherwise — except for references produced by the `file://` pattern, whose
`resolved` is the URL-to-path conversion of `raw`. -/
theorem claim_C9_resolved_amended (ru : String → String)
    (fu : String → Option String) (prompt : String) (r : DetectedAudioRef)
    (hr : r ∈ detectAudioReferences ru fu prompt) :
    r.resolved = (if r.raw.data.head? = some '~' then ru r.raw else r.raw) ∨
      fu r.raw = some r.resolved :=
  ((detect_inv ru fu prompt).2 r hr).2.2

/-- C9 amended witness: the `~`-expansion case, on the spec's Scenario A. -/
theorem claim_C9_resolved_amended_witness :
    ("/home/user/Music/song.mp3" : String) =
      (if ("~/Music/song.mp3" : String).data.head? = some '~'
       then resolveUserPathModel "~/Music/song.mp3" else ("~/Music/song.mp3" : String)) ∨
    fileURLToPathModel "~/Music/song.mp3" = some "/home/user/Music/song.mp3" :=
  claim_C9_resolved_amended resolveUserPathModel fileURLToPathModel
    "check out [media attached: ~/Music/song.mp3]"
    ⟨"~/Music/song.mp3", RefType.path, "/home/user/Music/song.mp3", none⟩ (by decide)

end Audio
